import Mathlib

/-!
Shallow embedding of the IULIA interpreter from
src/libjulia/interpreter/Interpreter.cpp, together with proofs about its
scope handling, argument evaluation order, literal decoding and function-call
semantics.

The interpreter walks an already-resolved syntax tree.  Values are 256-bit
words, modelled as natural numbers (all arithmetic on them happens inside the
external word-machine evaluator, which is a parameter of the embedding).
Fatal interpretation errors (solAssert failures and failures of the external
evaluator) are modelled by the `Outcome.fatal` result; the fuel needed to make
the recursion structural is accounted separately by `Outcome.outOfFuel`, so a
fatal error is never confused with running out of fuel.
-/

/-- A 256-bit word value (u256 in the source). -/
abbrev Word := Nat

/-- Result of an interpreter step: success, a fatal interpretation error
(a solAssert failure or a failure of the external instruction evaluator), or
exhaustion of the recursion fuel of the embedding. -/
inductive Outcome (α : Type) : Type where
  | ok (a : α)
  | fatal
  | outOfFuel
deriving DecidableEq

namespace Outcome

def bind {α β : Type} : Outcome α → (α → Outcome β) → Outcome β
  | .ok a, f => f a
  | .fatal, _ => .fatal
  | .outOfFuel, _ => .outOfFuel

instance : Monad Outcome where
  pure := Outcome.ok
  bind := Outcome.bind

@[simp] theorem bind_ok {α β : Type} (a : α) (f : α → Outcome β) :
    Outcome.bind (.ok a) f = f a := rfl

@[simp] theorem bind_fatal {α β : Type} (f : α → Outcome β) :
    Outcome.bind .fatal f = .fatal := rfl

@[simp] theorem bind_outOfFuel {α β : Type} (f : α → Outcome β) :
    Outcome.bind .outOfFuel f = .outOfFuel := rfl

@[simp] theorem monad_bind_eq {α β : Type} (x : Outcome α) (f : α → Outcome β) :
    x >>= f = Outcome.bind x f := rfl

@[simp] theorem pure_eq {α : Type} (a : α) : (pure a : Outcome α) = .ok a := rfl

end Outcome

/-- The string-keyed maps of the interpreter (std::map<string, ...> in the
source m_variables, m_functions and the per-call arguments map), modelled as
association lists with unique keys.  Only lookup, update-insert and erase are
ever used by the interpreter; iteration order of the map is never observed. -/
abbrev SMap (α : Type) := List (String × α)

namespace SMap

def empty {α : Type} : SMap α := []

def lookup {α : Type} : SMap α → String → Option α
  | [], _ => none
  | (k, v) :: rest, n => if k = n then some v else lookup rest n

/-- The count test of the source (m.count(n)), as a Bool. -/
def contains {α : Type} (m : SMap α) (n : String) : Bool :=
  (m.lookup n).isSome

/-- The indexed assignment of the source (m[k] = v): update the binding in
place, or add it. -/
def insert {α : Type} : SMap α → String → α → SMap α
  | [], n, v => [(n, v)]
  | (k, w) :: rest, n, v =>
    if k = n then (k, v) :: rest else (k, w) :: insert rest n v

/-- The erase operation of the source (keys are unique, so at most one entry
goes). -/
def erase {α : Type} : SMap α → String → SMap α
  | [], _ => []
  | (k, w) :: rest, n => if k = n then rest else (k, w) :: erase rest n

end SMap

/-- Kinds of literals (solidity::assembly::LiteralKind). -/
inductive LiteralKind : Type where
  | Boolean
  | Number
  | String
deriving DecidableEq

/-- A literal node: its kind and its textual value.  The value is modelled as
a byte string: each character of the Lean string stands for one byte of the
C++ std::string, so only characters with code points below 256 correspond to
source-representable literals. -/
structure Literal : Type where
  kind : LiteralKind
  value : String
deriving DecidableEq

mutual

/-- Expression nodes of the IR (the expression sublanguage visited by
ExpressionEvaluator): literals, identifiers, instruction calls
(FunctionalInstruction) and user-defined function calls (FunctionCall).
The instruction of a FunctionalInstruction is identified by its name, as in
the Word-Machine Evaluator interface. -/
inductive Expression : Type where
  | lit (l : Literal)
  | ident (name : String)
  | instr (name : String) (arguments : List Expression)
  | call (functionName : String) (arguments : List Expression)

/-- Statement nodes of the IR, one constructor per statement kind handled by
Interpreter::operator(). -/
inductive Statement : Type where
  | exprStmt (expression : Expression)
  | assign (variableNames : List String) (value : Expression)
  | varDecl (names : List String) (value : Option Expression)
  | ifStmt (condition : Expression) (body : Block)
  | switch (expression : Expression) (cases : List Case)
  | funDef (fd : FunctionDefinition)
  | forLoop (pre : Block) (condition : Expression) (post : Block) (body : Block)
  | block (b : Block)

/-- A switch case: an optional literal guard (absent for the default case)
and a body block. -/
inductive Case : Type where
  | mk (value : Option Literal) (body : Block)

/-- A function definition: name, parameter names, return variable names and
the body block (types attached to names in the source are ignored by the
interpreter). -/
inductive FunctionDefinition : Type where
  | mk (name : String) (parameters : List String)
      (returnVariables : List String) (body : Block)

/-- A block: a list of statements. -/
inductive Block : Type where
  | mk (statements : List Statement)

end

def Case.value : Case → Option Literal
  | .mk v _ => v

def Case.body : Case → Block
  | .mk _ b => b

def FunctionDefinition.name : FunctionDefinition → String
  | .mk n _ _ _ => n

def FunctionDefinition.parameters : FunctionDefinition → List String
  | .mk _ ps _ _ => ps

def FunctionDefinition.returnVariables : FunctionDefinition → List String
  | .mk _ _ rs _ => rs

def FunctionDefinition.body : FunctionDefinition → Block
  | .mk _ _ _ b => b

def Block.statements : Block → List Statement
  | .mk ss => ss

/-- The environment of one Interpreter instance: variable bindings
(m_variables), the function table (m_functions, storing the definitions
themselves in place of the non-owning pointers of the source) and the scope
stack (m_scopes; the head of the list is the innermost frame, the source's
m_scopes.back()). -/
structure Env : Type where
  vars : SMap Word
  functions : SMap FunctionDefinition
  scopes : List (List String)

/-- Modelled from the spec: the entry point constructs an interpreter over
"an initial (possibly empty) variable environment"; this is the empty one. -/
def Env.empty : Env := ⟨[], [], []⟩

/-- Modelled from the spec: the header-side openScope pushes a fresh, empty
scope frame ("an Environment frame is created when a block (or a for-loop's
initialization region) begins execution"). -/
def openScope (env : Env) : Env :=
  { env with scopes := [] :: env.scopes }

/-- The loop body of Interpreter::closeScope: for each name of the innermost
frame, erase it from the variable map and from the function table, and check
that exactly one binding was erased (the solAssert of line 142). -/
def closeScopeNames : List String → SMap Word → SMap FunctionDefinition →
    Outcome (SMap Word × SMap FunctionDefinition)
  | [], vars, fns => .ok (vars, fns)
  | n :: rest, vars, fns =>
    let erasedV : Nat := if vars.contains n then 1 else 0
    let erasedF : Nat := if fns.contains n then 1 else 0
    if erasedV + erasedF = 1 then
      closeScopeNames rest (vars.erase n) (fns.erase n)
    else .fatal

/-- Interpreter::closeScope (lines 138-144).  Note that the source erases the
names recorded in m_scopes.back() but never pops the frame off m_scopes, and
that no statement handler ever inserts a name into a frame, so the frames
stay empty and the erase loop never removes anything. -/
def closeScope (env : Env) : Outcome Env :=
  match env.scopes with
  | [] => .fatal
  | frame :: _ =>
    match closeScopeNames frame env.vars env.functions with
    | .ok (vars, fns) => .ok { env with vars := vars, functions := fns }
    | .fatal => .fatal
    | .outOfFuel => .outOfFuel

/-- The function pre-registration pass of Interpreter::operator()(Block)
(lines 113-119): every function definition appearing directly in the
statement list is entered into the function table before execution. -/
def registerFunctions (stmts : List Statement) (env : Env) : Env :=
  stmts.foldl
    (fun acc st =>
      match st with
      | .funDef fd => { acc with functions := acc.functions.insert fd.name fd }
      | _ => acc)
    env

/-- The argument-environment construction of
ExpressionEvaluator::operator()(FunctionCall) (lines 187-191): parameters are
bound positionally to the evaluated argument values, then every return
variable is bound to zero (overwriting a parameter of the same name, since
std::map assignment updates in place). -/
def callArguments (parameters : List String) (values : List Word)
    (returnVariables : List String) : SMap Word :=
  let withParams :=
    (parameters.zip values).foldl (fun m pv => m.insert pv.1 pv.2) SMap.empty
  returnVariables.foldl (fun m r => m.insert r 0) withParams

/-- Modelled from the spec: Interpreter::valueOfVariable lives in the missing
header; per the spec the call result is obtained by "read[ing] back the
callee's return variables", and a missing variable is a fatal inconsistency
(std::map::at). -/
def valueOfVariable (vars : SMap Word) (n : String) : Outcome Word :=
  match vars.lookup n with
  | some v => .ok v
  | none => .fatal

/-- The return-value readback loop of
ExpressionEvaluator::operator()(FunctionCall) (lines 198-200): the callee's
return variables, in their declared order. -/
def readReturnVariables : List String → SMap Word → Outcome (List Word)
  | [], _ => .ok []
  | r :: rest, vars => do
    let v ← valueOfVariable vars r
    let vs ← readReturnVariables rest vars
    .ok (v :: vs)

/-- The assignment loop of Interpreter::operator()(Assignment) (lines 48-53):
each target must already be a visible variable, and is updated in place. -/
def assignLoop : List (String × Word) → SMap Word → Outcome (SMap Word)
  | [], vars => .ok vars
  | (n, v) :: rest, vars =>
    if vars.contains n then assignLoop rest (vars.insert n v) else .fatal

/-- The declaration loop of Interpreter::operator()(VariableDeclaration)
(lines 63-68): each declared name must be absent from the variable map, and
is then bound.  Only the variable map is consulted, not the function table. -/
def declareLoop : List (String × Word) → SMap Word → Outcome (SMap Word)
  | [], vars => .ok vars
  | (n, v) :: rest, vars =>
    if vars.contains n then .fatal else declareLoop rest (vars.insert n v)

/-- Decoding of a byte string literal into a word, as in
u256(h256(value, h256::FromBinary, h256::AlignLeft)): the bytes are placed at
the big end of the 32-byte word and the remainder is zero-filled, so the word
is the base-256 value of the bytes shifted left by the unused byte count. -/
def decodeStringLiteral (bytes : List Nat) : Word :=
  (bytes.foldl (fun a b => a * 256 + b) 0) * 256 ^ (32 - bytes.length)

/-- The bytes of a literal's textual value (each character stands for one
byte of the C++ std::string). -/
def litBytes (s : String) : List Nat :=
  s.data.map Char.toNat

/-- Value of a decimal digit character, if it is one. -/
def decDigit (c : Char) : Option Nat :=
  if c.toNat ≥ 48 ∧ c.toNat ≤ 57 then some (c.toNat - 48) else none

/-- Value of a hexadecimal digit character, if it is one. -/
def hexDigit (c : Char) : Option Nat :=
  if c.toNat ≥ 48 ∧ c.toNat ≤ 57 then some (c.toNat - 48)
  else if c.toNat ≥ 97 ∧ c.toNat ≤ 102 then some (c.toNat - 87)
  else if c.toNat ≥ 65 ∧ c.toNat ≤ 70 then some (c.toNat - 55)
  else none

/-- Accumulate digits in a base. -/
def parseDigits (base : Nat) (digit : Char → Option Nat) :
    List Char → Nat → Option Nat
  | [], acc => some acc
  | c :: rest, acc =>
    match digit c with
    | some d => parseDigits base digit rest (acc * base + d)
    | none => none

/-- Parsing of a numeric literal's text into a word, as in u256(value):
a 0x prefix selects hexadecimal, otherwise the text is decimal; the result is
reduced to the 256-bit word width. -/
def parseNumber (s : String) : Option Word :=
  match s.data with
  | [] => none
  | '0' :: 'x' :: rest =>
    match rest with
    | [] => none
    | _ => (parseDigits 16 hexDigit rest 0).map (· % 2 ^ 256)
  | ds => (parseDigits 10 decDigit ds 0).map (· % 2 ^ 256)

/-- ExpressionEvaluator::operator()(Literal) (lines 146-163): booleans must
read "true" or "false" and decode to 1 or 0; numbers parse their textual
form; string literals of more than 32 bytes are a fatal inconsistency, and
shorter ones are left-aligned into the word. -/
def evalLiteral (l : Literal) : Outcome Word :=
  match l.kind with
  | .Boolean =>
    if l.value = ("true") then .ok 1
    else if l.value = ("false") then .ok 0
    else .fatal
  | .Number =>
    match parseNumber l.value with
    | some v => .ok v
    | none => .fatal
  | .String =>
    if l.value.length ≤ 32 then .ok (decodeStringLiteral (litBytes l.value))
    else .fatal

/-- The interface of the external Word-Machine Evaluator
(EVMInstructionInterpreter).  Modelled from the spec: it "exposes one
operation evaluate(instructionName, orderedArguments) -> value", may mutate
the shared machine state of type S, and may fail fatally (None). -/
def EvalInstr (S : Type) := String → List Word → S → Option (Word × S)

/-- The value() accessor of the evaluators.  Modelled from the spec: its
definition is in the missing header; "a multi-value expression (function
call) used where a single value is required must produce exactly one value
(fatal otherwise)". -/
def value1 : List Word → Outcome Word
  | [v] => .ok v
  | _ => .fatal

section Interpreter

variable {S : Type}

/-- A unit of work for the fueled recursion: evaluate an expression, execute
a statement, execute a block, or run the iteration part of a for loop.  All
units produce a value list (empty for the statement-like units), the
environment after the unit, and the machine state after the unit. -/
inductive Job : Type where
  | expr (e : Expression)
  | stmt (st : Statement)
  | block (b : Block)
  | loop (condition : Expression) (body : Block) (post : Block)

/-- ExpressionEvaluator::evaluateArgs (lines 203-213), parameterized by the
expression evaluator: the argument expressions are visited in reverse
textual order, each value is recorded as it is produced (value() asserting a
single value), and the record is reversed back into written order at the
end. -/
def evalArgsReversed
    (evalE : Expression → Env → S → Outcome (List Word × Env × S)) :
    List Expression → Env → S → Outcome (List Word × Env × S)
  | [], env, s => .ok ([], env, s)
  | e :: rest, env, s => do
    let (vals, env1, s1) ← evalE e env s
    let v ← value1 vals
    let (vs, env2, s2) ← evalArgsReversed evalE rest env1 s1
    .ok (v :: vs, env2, s2)

/-- The wrapper of evaluateArgs: visit the reversed argument list, then
reverse the collected values into the original written order. -/
def evaluateArgsWith
    (evalE : Expression → Env → S → Outcome (List Word × Env × S))
    (args : List Expression) (env : Env) (s : S) :
    Outcome (List Word × Env × S) := do
  let (vs, env1, s1) ← evalArgsReversed evalE args.reverse env s
  .ok (vs.reverse, env1, s1)

/-- Interpreter::evaluate (lines 124-129), parameterized by the expression
evaluator: evaluate and extract the single value. -/
def evaluateWith
    (evalE : Expression → Env → S → Outcome (List Word × Env × S))
    (e : Expression) (env : Env) (s : S) : Outcome (Word × Env × S) := do
  let (vals, env1, s1) ← evalE e env s
  let v ← value1 vals
  .ok (v, env1, s1)

/-- Sequential execution of a statement list (the statement visits of
ASTWalker::operator()(Block) and of the for-loop initializer). -/
def execStmtsWith (execS : Statement → Env → S → Outcome (Env × S)) :
    List Statement → Env → S → Outcome (Env × S)
  | [], env, s => .ok (env, s)
  | st :: rest, env, s => do
    let (env1, s1) ← execS st env s
    execStmtsWith execS rest env1 s1

/-- The case loop of Interpreter::operator()(Switch) (lines 82-88): take the
first case whose guard is absent or evaluates equal to the scrutinee, run
only its body, and stop. -/
def runCasesWith
    (evalE : Expression → Env → S → Outcome (List Word × Env × S))
    (execB : Block → Env → S → Outcome (Env × S)) :
    List Case → Word → Env → S → Outcome (Env × S)
  | [], _, env, s => .ok (env, s)
  | c :: rest, v, env, s =>
    match c.value with
    | none => execB c.body env s
    | some g => do
      let (gv, env1, s1) ← evaluateWith evalE (.lit g) env s
      if gv = v then execB c.body env1 s1
      else runCasesWith evalE execB rest v env1 s1

variable (M : EvalInstr S)

/-- One step of the interpreter at a given recursion budget: `recur` is the
interpreter at the next smaller budget.  Each case is the direct translation
of the corresponding visitor of Interpreter.cpp. -/
def interpStep (recur : Job → Env → S → Outcome (List Word × Env × S)) :
    Job → Env → S → Outcome (List Word × Env × S)
  | .expr e, env, s =>
    match e with
    | .lit l => do
      let v ← evalLiteral l
      .ok ([v], env, s)
    | .ident n =>
      -- ExpressionEvaluator::operator()(Identifier), lines 165-169.
      match env.vars.lookup n with
      | some v => .ok ([v], env, s)
      | none => .fatal
    | .instr n args => do
      -- ExpressionEvaluator::operator()(FunctionalInstruction), lines 171-178.
      let (vs, env1, s1) ← evaluateArgsWith (fun x => recur (.expr x)) args env s
      match M n vs s1 with
      | some (v, s2) => .ok ([v], env1, s2)
      | none => .fatal
    | .call n args =>
      -- ExpressionEvaluator::operator()(FunctionCall), lines 180-201.
      if env.functions.contains n then do
        let (vs, env1, s1) ← evaluateArgsWith (fun x => recur (.expr x)) args env s
        match env1.functions.lookup n with
        | none => .fatal
        | some fd =>
          if vs.length = fd.parameters.length then do
            let callEnv : Env :=
              ⟨callArguments fd.parameters vs fd.returnVariables,
                env1.functions, []⟩
            let (_, cenv, s2) ← recur (.block fd.body) callEnv s1
            let rets ← readReturnVariables fd.returnVariables cenv.vars
            .ok (rets, env1, s2)
          else .fatal
      else .fatal
  | .stmt st, env, s =>
    match st with
    | .exprStmt e => do
      -- Interpreter::operator()(ExpressionStatement), lines 38-41.
      let (_, env1, s1) ← recur (.expr e) env s
      .ok ([], env1, s1)
    | .assign names e => do
      -- Interpreter::operator()(Assignment), lines 43-54.
      let (vals, env1, s1) ← recur (.expr e) env s
      if vals.length = names.length then do
        let vars ← assignLoop (names.zip vals) env1.vars
        .ok ([], { env1 with vars := vars }, s1)
      else .fatal
    | .varDecl names val =>
      -- Interpreter::operator()(VariableDeclaration), lines 56-69.
      match val with
      | none => do
        let vars ←
          declareLoop (names.zip (List.replicate names.length (0 : Word)))
            env.vars
        .ok ([], { env with vars := vars }, s)
      | some e => do
        let (vals, env1, s1) ← recur (.expr e) env s
        if vals.length = names.length then do
          let vars ← declareLoop (names.zip vals) env1.vars
          .ok ([], { env1 with vars := vars }, s1)
        else .fatal
    | .ifStmt cond body => do
      -- Interpreter::operator()(If), lines 71-76.
      let (v, env1, s1) ← evaluateWith (fun x => recur (.expr x)) cond env s
      if v ≠ 0 then do
        let (_, env2, s2) ← recur (.block body) env1 s1
        .ok ([], env2, s2)
      else .ok ([], env1, s1)
    | .switch e cases => do
      -- Interpreter::operator()(Switch), lines 78-89.
      let (v, env1, s1) ← evaluateWith (fun x => recur (.expr x)) e env s
      let (env2, s2) ←
        runCasesWith (fun x => recur (.expr x))
          (fun b env2 s2 => do
            let (_, env3, s3) ← recur (.block b) env2 s2
            .ok (env3, s3))
          cases v env1 s1
      .ok ([], env2, s2)
    | .funDef _ =>
      -- Interpreter::operator()(FunctionDefinition), lines 91-93: a no-op.
      .ok ([], env, s)
    | .forLoop pre cond post body => do
      -- Interpreter::operator()(ForLoop), lines 95-108.
      let env0 := openScope env
      let (env1, s1) ←
        execStmtsWith
          (fun x env2 s2 => do
            let (_, env3, s3) ← recur (.stmt x) env2 s2
            .ok (env3, s3))
          pre.statements env0 s
      let (_, env2, s2) ← recur (.loop cond body post) env1 s1
      let env3 ← closeScope env2
      .ok ([], env3, s2)
    | .block b => do
      let (_, env1, s1) ← recur (.block b) env s
      .ok ([], env1, s1)
  | .block b, env, s => do
    -- Interpreter::operator()(Block), lines 110-122.
    let env0 := openScope env
    let env1 := registerFunctions b.statements env0
    let (env2, s1) ←
      execStmtsWith
        (fun x env2 s2 => do
          let (_, env3, s3) ← recur (.stmt x) env2 s2
          .ok (env3, s3))
        b.statements env1 s
    let env3 ← closeScope env2
    .ok ([], env3, s1)
  | .loop cond body post, env, s => do
    -- The while loop of Interpreter::operator()(ForLoop), lines 102-106.
    let (v, env1, s1) ← evaluateWith (fun x => recur (.expr x)) cond env s
    if v = 0 then .ok ([], env1, s1)
    else do
      let (_, env2, s2) ← recur (.block body) env1 s1
      let (_, env3, s3) ← recur (.block post) env2 s2
      recur (.loop cond body post) env3 s3

/-- The fueled interpreter: at budget f+1 one interpretation step is taken,
recursive work running at budget f. -/
def interp : Nat → Job → Env → S → Outcome (List Word × Env × S)
  | 0 => fun _ _ _ => .outOfFuel
  | f + 1 => interpStep M (interp f)

/-- Evaluation of one expression at a given budget (the ExpressionEvaluator
entry, returning the m_values list). -/
def evalExprF (f : Nat) (e : Expression) (env : Env) (s : S) :
    Outcome (List Word × Env × S) :=
  interp M f (.expr e) env s

/-- Interpreter::evaluate at a given budget: a single value. -/
def evaluate (f : Nat) : Expression → Env → S → Outcome (Word × Env × S) :=
  evaluateWith (evalExprF M f)

/-- ExpressionEvaluator::evaluateArgs at a given budget. -/
def evaluateArgs (f : Nat) :
    List Expression → Env → S → Outcome (List Word × Env × S) :=
  evaluateArgsWith (evalExprF M f)

/-- Execution of one statement at a given budget. -/
def execStmt (f : Nat) (st : Statement) (env : Env) (s : S) :
    Outcome (Env × S) :=
  match interp M f (.stmt st) env s with
  | .ok (_, env1, s1) => .ok (env1, s1)
  | .fatal => .fatal
  | .outOfFuel => .outOfFuel

/-- Execution of one block at a given budget. -/
def execBlock (f : Nat) (b : Block) (env : Env) (s : S) :
    Outcome (Env × S) :=
  match interp M f (.block b) env s with
  | .ok (_, env1, s1) => .ok (env1, s1)
  | .fatal => .fatal
  | .outOfFuel => .outOfFuel

/-- Modelled from the spec: the entry point — "construct an interpreter over
a top-level block, an initial (possibly empty) variable environment, and a
machine-state handle; invoke it once". -/
def run (f : Nat) (b : Block) (s : S) : Outcome (Env × S) :=
  execBlock M f b Env.empty s

end Interpreter

section Projections

variable {S : Type}

/-- The binding of a variable after a statement-level outcome, if any. -/
def resultVar (r : Outcome (Env × S)) (n : String) : Option Word :=
  match r with
  | .ok (env, _) => env.vars.lookup n
  | _ => none

/-- The machine state after a statement-level outcome, if any. -/
def resultState (r : Outcome (Env × S)) : Option S :=
  match r with
  | .ok (_, s) => some s
  | _ => none

/-- Whether an outcome is the fatal interpretation error (and in particular
not fuel exhaustion). -/
def isFatalOutcome {α : Type} : Outcome α → Bool
  | .fatal => true
  | _ => false

/-- The value list of an expression-level outcome, if any. -/
def exprValues (r : Outcome (List Word × Env × S)) : Option (List Word) :=
  match r with
  | .ok (vs, _, _) => some vs
  | _ => none

/-- The machine state of an expression-level outcome, if any. -/
def exprState (r : Outcome (List Word × Env × S)) : Option S :=
  match r with
  | .ok (_, _, s) => some s
  | _ => none

end Projections

/-- A concrete machine state for test executions: the list of side-effect
events (instruction name and argument values) recorded so far. -/
abbrev TestState := List (String × List Word)

/-- Results of the recording instructions of the test machine. -/
def testValue : String → Word
  | "A" => 10
  | "B" => 20
  | _ => 0

/-- A concrete Word-Machine Evaluator for test executions: add, sub, mul and
lt compute on words without touching the state; every other instruction
appends an event to the state (an observable side effect) and returns its
test value. -/
def testEval : EvalInstr TestState := fun n args s =>
  match n, args with
  | "add", [a, b] => some ((a + b) % 2 ^ 256, s)
  | "sub", [a, b] => some ((a + 2 ^ 256 - b) % 2 ^ 256, s)
  | "mul", [a, b] => some ((a * b) % 2 ^ 256, s)
  | "lt", [a, b] => some (if a < b then 1 else 0, s)
  | _, _ => some (testValue n, s ++ [(n, args)])

/-! ## Map lemmas -/

namespace SMap

theorem lookup_insert_self {α : Type} (m : SMap α) (k : String) (v : α) :
    (m.insert k v).lookup k = some v := by
  induction m with
  | nil => simp [insert, lookup]
  | cons kv rest ih =>
    obtain ⟨k0, v0⟩ := kv
    by_cases h : k0 = k
    · subst h
      simp [insert, lookup]
    · simp [insert, lookup, h, ih]

theorem lookup_insert_ne {α : Type} (m : SMap α) (k n : String) (v : α)
    (h : k ≠ n) : (m.insert k v).lookup n = m.lookup n := by
  induction m with
  | nil => simp [insert, lookup, h]
  | cons kv rest ih =>
    obtain ⟨k0, v0⟩ := kv
    by_cases h0 : k0 = k
    · subst h0
      simp [insert, lookup, h]
    · by_cases h1 : k0 = n
      · subst h1
        simp [insert, lookup, h0]
      · simp [insert, lookup, h0, h1, ih]

end SMap

/-- Folding pairwise inserts over pairs whose keys avoid n leaves the lookup
of n unchanged. -/
theorem lookup_foldl_insert_pairs_not_mem {pairs : List (String × Word)}
    {m0 : SMap Word} {n : String} (h : n ∉ pairs.map Prod.fst) :
    (pairs.foldl (fun m pv => m.insert pv.1 pv.2) m0).lookup n = m0.lookup n := by
  induction pairs generalizing m0 with
  | nil => rfl
  | cons pv rest ih =>
    simp only [List.map_cons, List.mem_cons] at h
    push_neg at h
    simp only [List.foldl_cons]
    rw [ih h.2, SMap.lookup_insert_ne _ _ _ _ (fun hq => h.1 hq.symm)]

/-- Folding pairwise inserts with nodup keys binds each key of the list to
its paired value. -/
theorem lookup_foldl_insert_pairs_mem {pairs : List (String × Word)}
    {m0 : SMap Word} {k : String} {v : Word} (hmem : (k, v) ∈ pairs)
    (hnd : (pairs.map Prod.fst).Nodup) :
    (pairs.foldl (fun m pv => m.insert pv.1 pv.2) m0).lookup k = some v := by
  induction pairs generalizing m0 with
  | nil => cases hmem
  | cons pv rest ih =>
    simp only [List.map_cons, List.nodup_cons] at hnd
    rcases List.mem_cons.mp hmem with heq | hrest
    · subst heq
      simp only [List.foldl_cons]
      rw [lookup_foldl_insert_pairs_not_mem hnd.1, SMap.lookup_insert_self]
    · simp only [List.foldl_cons]
      exact ih hrest hnd.2

/-- Folding zero-inserts over names avoiding n leaves the lookup of n
unchanged. -/
theorem lookup_foldl_insert_zeros_not_mem {rs : List String}
    {m0 : SMap Word} {n : String} (h : n ∉ rs) :
    (rs.foldl (fun m r => m.insert r 0) m0).lookup n = m0.lookup n := by
  induction rs generalizing m0 with
  | nil => rfl
  | cons r rest ih =>
    simp only [List.mem_cons] at h
    push_neg at h
    simp only [List.foldl_cons]
    rw [ih h.2, SMap.lookup_insert_ne _ _ _ _ (fun hq => h.1 hq.symm)]

/-- Folding zero-inserts binds every listed name to zero. -/
theorem lookup_foldl_insert_zeros_mem {rs : List String} {m0 : SMap Word}
    {n : String} (h : n ∈ rs) :
    (rs.foldl (fun m r => m.insert r 0) m0).lookup n = some 0 := by
  induction rs generalizing m0 with
  | nil => cases h
  | cons r rest ih =>
    by_cases hr : n ∈ rest
    · simp only [List.foldl_cons]
      exact ih hr
    · have hn : n = r := by
        rcases List.mem_cons.mp h with h1 | h1
        · exact h1
        · exact absurd h1 hr
      subst hn
      simp only [List.foldl_cons]
      rw [lookup_foldl_insert_zeros_not_mem hr, SMap.lookup_insert_self]

/-- A return variable is bound to zero in the call environment, whatever the
parameters and argument values were. -/
theorem callArguments_lookup_ret {ps : List String} {vs : List Word}
    {rs : List String} {n : String} (h : n ∈ rs) :
    (callArguments ps vs rs).lookup n = some 0 :=
  lookup_foldl_insert_zeros_mem h

/-- A parameter that is not also a return variable is bound positionally to
its argument value in the call environment. -/
theorem callArguments_lookup_param {ps : List String} {vs : List Word}
    {rs : List String} {i : Nat} (hnd : ps.Nodup)
    (hlen : ps.length ≤ vs.length) (hi : i < ps.length) (hiv : i < vs.length)
    (hnr : ps.get ⟨i, hi⟩ ∉ rs) :
    (callArguments ps vs rs).lookup (ps.get ⟨i, hi⟩) =
      some (vs.get ⟨i, hiv⟩) := by
  unfold callArguments
  rw [lookup_foldl_insert_zeros_not_mem hnr]
  apply lookup_foldl_insert_pairs_mem
  · have hiz : i < (ps.zip vs).length := by
      simp only [List.length_zip]
      omega
    have hz : (ps.zip vs).get ⟨i, hiz⟩ =
        (ps.get ⟨i, hi⟩, vs.get ⟨i, hiv⟩) := by
      simp [List.getElem_zip]
    exact hz ▸ List.get_mem (ps.zip vs) i hiz
  · rw [List.map_fst_zip ps vs hlen]
    exact hnd

/-- A name that is neither a parameter nor a return variable is absent from
the call environment: it consists solely of parameter and return-variable
bindings. -/
theorem callArguments_lookup_none {ps : List String} {vs : List Word}
    {rs : List String} {n : String} (hp : n ∉ ps) (hr : n ∉ rs) :
    (callArguments ps vs rs).lookup n = none := by
  unfold callArguments
  rw [lookup_foldl_insert_zeros_not_mem hr]
  rw [lookup_foldl_insert_pairs_not_mem ?notmem]
  case notmem =>
    intro hmem
    rcases List.mem_map.mp hmem with ⟨⟨a, b⟩, hab, hfst⟩
    exact hp (hfst ▸ (List.of_mem_zip hab).1)
  rfl

/-! ## Unfolding equations of the fueled interpreter -/

section Unfold

variable {S : Type} (M : EvalInstr S)

theorem interp_zero (t : Job) (env : Env) (s : S) :
    interp M 0 t env s = .outOfFuel := rfl

theorem interp_succ (f : Nat) :
    interp M (f + 1) = interpStep M (interp M f) := rfl

theorem interp_expr_lit (f : Nat) (l : Literal) (env : Env) (s : S) :
    interp M (f + 1) (.expr (.lit l)) env s = (do
      let v ← evalLiteral l
      .ok ([v], env, s)) := rfl

theorem interp_expr_ident (f : Nat) (n : String) (env : Env) (s : S) :
    interp M (f + 1) (.expr (.ident n)) env s =
      (match env.vars.lookup n with
      | some v => .ok ([v], env, s)
      | none => .fatal) := rfl

theorem interp_expr_instr (f : Nat) (n : String) (args : List Expression)
    (env : Env) (s : S) :
    interp M (f + 1) (.expr (.instr n args)) env s = (do
      let (vs, env1, s1) ← evaluateArgs M f args env s
      match M n vs s1 with
      | some (v, s2) => .ok ([v], env1, s2)
      | none => .fatal) := rfl

theorem interp_expr_call (f : Nat) (n : String) (args : List Expression)
    (env : Env) (s : S) :
    interp M (f + 1) (.expr (.call n args)) env s =
      (if env.functions.contains n then do
        let (vs, env1, s1) ← evaluateArgs M f args env s
        match env1.functions.lookup n with
        | none => .fatal
        | some fd =>
          if vs.length = fd.parameters.length then do
            let callEnv : Env :=
              ⟨callArguments fd.parameters vs fd.returnVariables,
                env1.functions, []⟩
            let (_, cenv, s2) ← interp M f (.block fd.body) callEnv s1
            let rets ← readReturnVariables fd.returnVariables cenv.vars
            .ok (rets, env1, s2)
          else .fatal
      else .fatal) := rfl

theorem interp_stmt_exprStmt (f : Nat) (e : Expression) (env : Env) (s : S) :
    interp M (f + 1) (.stmt (.exprStmt e)) env s = (do
      let (_, env1, s1) ← interp M f (.expr e) env s
      .ok ([], env1, s1)) := rfl

theorem interp_stmt_assign (f : Nat) (names : List String) (e : Expression)
    (env : Env) (s : S) :
    interp M (f + 1) (.stmt (.assign names e)) env s = (do
      let (vals, env1, s1) ← interp M f (.expr e) env s
      if vals.length = names.length then do
        let vars ← assignLoop (names.zip vals) env1.vars
        .ok ([], { env1 with vars := vars }, s1)
      else .fatal) := rfl

theorem interp_stmt_varDecl_none (f : Nat) (names : List String)
    (env : Env) (s : S) :
    interp M (f + 1) (.stmt (.varDecl names none)) env s = (do
      let vars ←
        declareLoop (names.zip (List.replicate names.length (0 : Word)))
          env.vars
      .ok ([], { env with vars := vars }, s)) := rfl

theorem interp_stmt_varDecl_some (f : Nat) (names : List String)
    (e : Expression) (env : Env) (s : S) :
    interp M (f + 1) (.stmt (.varDecl names (some e))) env s = (do
      let (vals, env1, s1) ← interp M f (.expr e) env s
      if vals.length = names.length then do
        let vars ← declareLoop (names.zip vals) env1.vars
        .ok ([], { env1 with vars := vars }, s1)
      else .fatal) := rfl

theorem interp_stmt_if (f : Nat) (cond : Expression) (body : Block)
    (env : Env) (s : S) :
    interp M (f + 1) (.stmt (.ifStmt cond body)) env s = (do
      let (v, env1, s1) ← evaluate M f cond env s
      if v ≠ 0 then do
        let (_, env2, s2) ← interp M f (.block body) env1 s1
        .ok ([], env2, s2)
      else .ok ([], env1, s1)) := rfl

theorem interp_stmt_switch (f : Nat) (e : Expression) (cases : List Case)
    (env : Env) (s : S) :
    interp M (f + 1) (.stmt (.switch e cases)) env s = (do
      let (v, env1, s1) ← evaluate M f e env s
      let (env2, s2) ←
        runCasesWith (fun x => interp M f (.expr x))
          (fun b env2 s2 => do
            let (_, env3, s3) ← interp M f (.block b) env2 s2
            .ok (env3, s3))
          cases v env1 s1
      .ok ([], env2, s2)) := rfl

theorem interp_stmt_funDef (f : Nat) (fd : FunctionDefinition)
    (env : Env) (s : S) :
    interp M (f + 1) (.stmt (.funDef fd)) env s = .ok ([], env, s) := rfl

theorem interp_stmt_forLoop (f : Nat) (pre : Block) (cond : Expression)
    (post : Block) (body : Block) (env : Env) (s : S) :
    interp M (f + 1) (.stmt (.forLoop pre cond post body)) env s = (do
      let env0 := openScope env
      let (env1, s1) ←
        execStmtsWith
          (fun x env2 s2 => do
            let (_, env3, s3) ← interp M f (.stmt x) env2 s2
            .ok (env3, s3))
          pre.statements env0 s
      let (_, env2, s2) ← interp M f (.loop cond body post) env1 s1
      let env3 ← closeScope env2
      .ok ([], env3, s2)) := rfl

theorem interp_stmt_block (f : Nat) (b : Block) (env : Env) (s : S) :
    interp M (f + 1) (.stmt (.block b)) env s = (do
      let (_, env1, s1) ← interp M f (.block b) env s
      .ok ([], env1, s1)) := rfl

theorem interp_block_eq (f : Nat) (b : Block) (env : Env) (s : S) :
    interp M (f + 1) (.block b) env s = (do
      let env0 := openScope env
      let env1 := registerFunctions b.statements env0
      let (env2, s1) ←
        execStmtsWith
          (fun x env2 s2 => do
            let (_, env3, s3) ← interp M f (.stmt x) env2 s2
            .ok (env3, s3))
          b.statements env1 s
      let env3 ← closeScope env2
      .ok ([], env3, s1)) := rfl

theorem interp_loop_eq (f : Nat) (cond : Expression) (body post : Block)
    (env : Env) (s : S) :
    interp M (f + 1) (.loop cond body post) env s = (do
      let (v, env1, s1) ← evaluate M f cond env s
      if v = 0 then .ok ([], env1, s1)
      else do
        let (_, env2, s2) ← interp M f (.block body) env1 s1
        let (_, env3, s3) ← interp M f (.block post) env2 s2
        interp M f (.loop cond body post) env3 s3) := rfl

end Unfold

/-! ## Outcome case-analysis helpers -/

theorem Outcome.bind_eq_ok_iff {α β : Type} {x : Outcome α}
    {f : α → Outcome β} {b : β} :
    Outcome.bind x f = .ok b ↔ ∃ a, x = .ok a ∧ f a = .ok b := by
  cases x <;> simp [Outcome.bind]

theorem Outcome.bind_eq_fatal_iff {α β : Type} {x : Outcome α}
    {f : α → Outcome β} :
    Outcome.bind x f = .fatal ↔
      x = .fatal ∨ ∃ a, x = .ok a ∧ f a = .fatal := by
  cases x <;> simp [Outcome.bind]

/-! ## The expression evaluator leaves the environment unchanged -/

theorem evalArgsReversed_env {S : Type}
    {evalE : Expression → Env → S → Outcome (List Word × Env × S)}
    (hE : ∀ e env s r, evalE e env s = .ok r → r.2.1 = env) :
    ∀ (es : List Expression) (env : Env) (s : S) (r : List Word × Env × S),
      evalArgsReversed evalE es env s = .ok r → r.2.1 = env := by
  intro es
  induction es with
  | nil =>
    intro env s r h
    simp only [evalArgsReversed] at h
    cases h
    rfl
  | cons e rest ih =>
    intro env s r h
    simp only [evalArgsReversed, Outcome.monad_bind_eq, Outcome.pure_eq,
      Outcome.bind_eq_ok_iff] at h
    obtain ⟨⟨vals, env1, s1⟩, hev, ⟨v, hv, ⟨⟨vs, env2, s2⟩, hrest, hok⟩⟩⟩ := h
    cases hok
    have h1 : env1 = env := hE e env s _ hev
    have h2 : env2 = env1 := ih env1 s1 _ hrest
    simp [h1, h2]

theorem evaluateArgsWith_env {S : Type}
    {evalE : Expression → Env → S → Outcome (List Word × Env × S)}
    (hE : ∀ e env s r, evalE e env s = .ok r → r.2.1 = env)
    (args : List Expression) (env : Env) (s : S) (r : List Word × Env × S)
    (h : evaluateArgsWith evalE args env s = .ok r) : r.2.1 = env := by
  simp only [evaluateArgsWith, Outcome.monad_bind_eq, Outcome.pure_eq,
    Outcome.bind_eq_ok_iff] at h
  obtain ⟨⟨vs, env1, s1⟩, hrev, hok⟩ := h
  cases hok
  exact evalArgsReversed_env hE args.reverse env s (vs, env1, s1) hrev

/-- Evaluating an expression never changes the evaluating interpreter's own
environment (variable bindings, function table and scope stack): the
evaluator only reads them, and a function call builds and then discards its
own fresh environment. -/
theorem evalExpr_env_preserved {S : Type} (M : EvalInstr S) :
    ∀ (f : Nat) (e : Expression) (env : Env) (s : S)
      (r : List Word × Env × S),
      interp M f (.expr e) env s = .ok r → r.2.1 = env := by
  intro f
  induction f with
  | zero =>
    intro e env s r h
    rw [interp_zero] at h
    cases h
  | succ f ih =>
    intro e env s r h
    cases e with
    | lit l =>
      rw [interp_expr_lit] at h
      simp only [Outcome.monad_bind_eq, Outcome.bind_eq_ok_iff] at h
      obtain ⟨v, hv, hok⟩ := h
      cases hok
      rfl
    | ident n =>
      rw [interp_expr_ident] at h
      cases hl : env.vars.lookup n with
      | some v =>
        rw [hl] at h
        cases h
        rfl
      | none =>
        rw [hl] at h
        cases h
    | instr n args =>
      rw [interp_expr_instr] at h
      simp only [Outcome.monad_bind_eq, Outcome.bind_eq_ok_iff] at h
      obtain ⟨⟨vs, env1, s1⟩, hargs, h⟩ := h
      dsimp only at h
      have h1 : env1 = env :=
        evaluateArgsWith_env (fun e env s r hr => ih e env s r hr)
          args env s (vs, env1, s1) hargs
      cases hM : M n vs s1 with
      | some p =>
        obtain ⟨v, s2⟩ := p
        rw [hM] at h
        cases h
        exact h1
      | none =>
        rw [hM] at h
        cases h
    | call n args =>
      rw [interp_expr_call] at h
      by_cases hc : env.functions.contains n
      · rw [if_pos hc] at h
        simp only [Outcome.monad_bind_eq, Outcome.bind_eq_ok_iff] at h
        obtain ⟨⟨vs, env1, s1⟩, hargs, h⟩ := h
        dsimp only at h
        have h1 : env1 = env :=
          evaluateArgsWith_env (fun e env s r hr => ih e env s r hr)
            args env s (vs, env1, s1) hargs
        cases hf : env1.functions.lookup n with
        | none =>
          rw [hf] at h
          cases h
        | some fd =>
          rw [hf] at h
          dsimp only at h
          by_cases hlen : vs.length = fd.parameters.length
          · rw [if_pos hlen] at h
            simp only [Outcome.monad_bind_eq, Outcome.bind_eq_ok_iff] at h
            obtain ⟨⟨ws, cenv, s2⟩, hbody, ⟨rets, hrets, hok⟩⟩ := h
            cases hok
            exact h1
          · rw [if_neg hlen] at h
            cases h
      · rw [if_neg hc] at h
        cases h

/-! ## Argument evaluation order -/

/-- Splitting off the last argument: the rightmost argument expression is
evaluated first, in the incoming state, and its value is appended at the end
of the delivered value sequence. -/
theorem evaluateArgs_snoc {S : Type} (M : EvalInstr S) (f : Nat)
    (es : List Expression) (e : Expression) (env : Env) (s : S) :
    evaluateArgs M f (es ++ [e]) env s = (do
      let (v, env1, s1) ← evaluate M f e env s
      let (vs, env2, s2) ← evaluateArgs M f es env1 s1
      .ok (vs ++ [v], env2, s2)) := by
  show evaluateArgsWith (evalExprF M f) (es ++ [e]) env s = _
  unfold evaluateArgsWith
  rw [List.reverse_append]
  simp only [List.reverse_cons, List.reverse_nil, List.nil_append,
    List.singleton_append]
  rw [evalArgsReversed]
  show _ = Outcome.bind (evaluateWith (evalExprF M f) e env s) _
  unfold evaluateWith
  cases hev : evalExprF M f e env s with
  | fatal => simp
  | outOfFuel => simp
  | ok r =>
    obtain ⟨vals, env1, s1⟩ := r
    simp only [Outcome.monad_bind_eq, Outcome.bind_ok]
    cases hv : value1 vals with
    | fatal => simp
    | outOfFuel => simp
    | ok v =>
      simp only [Outcome.bind_ok]
      show _ = Outcome.bind (evaluateArgsWith (evalExprF M f) es env1 s1) _
      unfold evaluateArgsWith
      cases hrest : evalArgsReversed (evalExprF M f) es.reverse env1 s1 with
      | fatal => simp
      | outOfFuel => simp
      | ok r2 =>
        obtain ⟨vs, env2, s2⟩ := r2
        simp [List.reverse_cons]

/-! ## Declaration and assignment loops -/

/-- Declaring any name that is already visible as a variable is fatal. -/
theorem declareLoop_fatal {names : List String} {vals : List Word}
    {vars : SMap Word} {n : String} (hmem : n ∈ names)
    (hlen : names.length = vals.length) (hvis : vars.contains n = true) :
    declareLoop (names.zip vals) vars = .fatal := by
  induction names generalizing vals vars with
  | nil => cases hmem
  | cons k rest ih =>
    cases vals with
    | nil => simp at hlen
    | cons v vrest =>
      simp only [List.zip_cons_cons, declareLoop]
      by_cases hk : vars.contains k
      · simp [hk]
      · rw [if_neg (by simp [hk])]
        rcases List.mem_cons.mp hmem with h1 | h1
        · exact absurd (h1 ▸ hvis) (by simp [hk])
        · apply ih h1 (by simpa using hlen)
          have hne : k ≠ n := fun he => by
            rw [he] at hk
            exact hk (by simp [hvis])
          unfold SMap.contains
          rw [SMap.lookup_insert_ne _ _ _ _ hne]
          exact hvis

/-- Assigning to any name that is not a visible variable is fatal. -/
theorem assignLoop_fatal {names : List String} {vals : List Word}
    {vars : SMap Word} {n : String} (hmem : n ∈ names)
    (hlen : names.length = vals.length) (habs : vars.contains n = false) :
    assignLoop (names.zip vals) vars = .fatal := by
  induction names generalizing vals vars with
  | nil => cases hmem
  | cons k rest ih =>
    cases vals with
    | nil => simp at hlen
    | cons v vrest =>
      simp only [List.zip_cons_cons, assignLoop]
      by_cases hk : vars.contains k
      · rw [if_pos hk]
        rcases List.mem_cons.mp hmem with h1 | h1
        · rw [h1] at habs
          rw [habs] at hk
          cases hk
        · apply ih h1 (by simpa using hlen)
          have hne : k ≠ n := fun he => by
            rw [he] at hk
            rw [habs] at hk
            cases hk
          unfold SMap.contains
          rw [SMap.lookup_insert_ne _ _ _ _ hne]
          exact habs
      · simp [hk]

/-- Declaring pairwise-distinct fresh names with the zero value succeeds and
binds each of them to zero, leaving all other bindings unchanged. -/
theorem declareLoop_zeros_ok {names : List String} {vars : SMap Word}
    (hnd : names.Nodup) (habs : ∀ n ∈ names, vars.contains n = false) :
    ∃ vars2,
      declareLoop (names.zip (List.replicate names.length (0 : Word))) vars =
        .ok vars2
      ∧ (∀ n ∈ names, vars2.lookup n = some 0)
      ∧ (∀ m, m ∉ names → vars2.lookup m = vars.lookup m) := by
  induction names generalizing vars with
  | nil => exact ⟨vars, rfl, by simp, fun m _ => rfl⟩
  | cons k rest ih =>
    simp only [List.nodup_cons] at hnd
    have hk : vars.contains k = false := habs k (by simp)
    have habs2 : ∀ n ∈ rest, (vars.insert k 0).contains n = false := by
      intro n hn
      have hne : k ≠ n := fun he => hnd.1 (he ▸ hn)
      unfold SMap.contains
      rw [SMap.lookup_insert_ne _ _ _ _ hne]
      exact habs n (by simp [hn])
    obtain ⟨vars2, heq, hzero, hpres⟩ := ih hnd.2 habs2
    refine ⟨vars2, ?_, ?_, ?_⟩
    · simp only [List.length_cons, List.replicate_succ, List.zip_cons_cons,
        declareLoop]
      rw [if_neg (by simp [hk])]
      exact heq
    · intro n hn
      rcases List.mem_cons.mp hn with h1 | h1
      · subst h1
        rw [hpres n hnd.1, SMap.lookup_insert_self]
      · exact hzero n h1
    · intro m hm
      simp only [List.mem_cons] at hm
      push_neg at hm
      rw [hpres m hm.2, SMap.lookup_insert_ne _ _ _ _ (fun he => hm.1 he.symm)]

/-! ## Switch case selection -/

/-- A list of explicitly guarded cases. -/
def guardedCases (pre : List (Literal × Block)) : List Case :=
  pre.map (fun p => Case.mk (some p.1) p.2)

/-- A guardless case at the head of the case list is taken unconditionally. -/
theorem runCases_default_head {S : Type}
    (evalE : Expression → Env → S → Outcome (List Word × Env × S))
    (execB : Block → Env → S → Outcome (Env × S)) (b : Block)
    (cs : List Case) (v : Word) (env : Env) (s : S) :
    runCasesWith evalE execB (Case.mk none b :: cs) v env s =
      execB b env s := rfl

/-- Guarded cases whose literal guards decode to values different from the
scrutinee are skipped, with the guards evaluated in declaration order. -/
theorem runCases_skip {S : Type} (M : EvalInstr S) (f : Nat)
    (execB : Block → Env → S → Outcome (Env × S))
    (pre : List (Literal × Block)) (cs : List Case) (v : Word)
    (env : Env) (s : S)
    (hpre : ∀ p ∈ pre, ∃ w, evalLiteral p.1 = .ok w ∧ w ≠ v) :
    runCasesWith (fun x => interp M (f + 1) (.expr x)) execB
      (guardedCases pre ++ cs) v env s =
    runCasesWith (fun x => interp M (f + 1) (.expr x)) execB cs v env s := by
  induction pre generalizing env s with
  | nil => rfl
  | cons p rest ih =>
    obtain ⟨w, hw, hne⟩ := hpre p (by simp)
    simp only [guardedCases, List.map_cons, List.cons_append, runCasesWith,
      Case.value, Case.body]
    have hguard :
        evaluateWith (fun x => interp M (f + 1) (.expr x)) (.lit p.1) env s =
          .ok (w, env, s) := by
      simp [evaluateWith, interp_expr_lit, hw, value1]
    rw [hguard]
    simp only [Outcome.monad_bind_eq, Outcome.bind_ok]
    rw [if_neg hne]
    exact ih env s (fun q hq => hpre q (List.mem_cons_of_mem _ hq))

/-- A guarded case whose literal guard decodes to the scrutinee value is
taken: only its body runs. -/
theorem runCases_match_head {S : Type} (M : EvalInstr S) (f : Nat)
    (execB : Block → Env → S → Outcome (Env × S)) (g : Literal) (b : Block)
    (cs : List Case) (v : Word) (env : Env) (s : S)
    (hg : evalLiteral g = .ok v) :
    runCasesWith (fun x => interp M (f + 1) (.expr x)) execB
      (Case.mk (some g) b :: cs) v env s = execB b env s := by
  simp only [runCasesWith, Case.value, Case.body]
  have hguard :
      evaluateWith (fun x => interp M (f + 1) (.expr x)) (.lit g) env s =
        .ok (v, env, s) := by
    simp [evaluateWith, interp_expr_lit, hg, value1]
  rw [hguard]
  simp

/-! ## String literal decoding arithmetic -/

/-- The big-endian base-256 value of a byte list. -/
def byteListVal (bs : List Nat) : Nat :=
  bs.foldl (fun a b => a * 256 + b) 0

/-- Byte i (big-endian, counting from the most significant byte) of a
256-bit word. -/
def wordByteBE (w : Word) (i : Nat) : Nat :=
  w / 256 ^ (31 - i) % 256

/-- The 32 big-endian bytes of a 256-bit word. -/
def wordBytesBE (w : Word) : List Nat :=
  (List.range 32).map (wordByteBE w)

theorem decodeStringLiteral_eq (bs : List Nat) :
    decodeStringLiteral bs = byteListVal bs * 256 ^ (32 - bs.length) := rfl

theorem byteListVal_foldl_acc (bs : List Nat) :
    ∀ a : Nat, bs.foldl (fun x b => x * 256 + b) a =
      a * 256 ^ bs.length + byteListVal bs := by
  induction bs with
  | nil => intro a; simp [byteListVal]
  | cons b rest ih =>
    intro a
    simp only [List.foldl_cons]
    rw [ih (a * 256 + b)]
    have hcons : byteListVal (b :: rest) =
        (0 * 256 + b) * 256 ^ rest.length + byteListVal rest := by
      have hstep : byteListVal (b :: rest) =
          List.foldl (fun x c => x * 256 + c) (0 * 256 + b) rest := rfl
      rw [hstep, ih (0 * 256 + b)]
    rw [hcons, List.length_cons]
    ring

theorem byteListVal_cons (b : Nat) (bs : List Nat) :
    byteListVal (b :: bs) = b * 256 ^ bs.length + byteListVal bs := by
  have hstep : byteListVal (b :: bs) =
      List.foldl (fun x c => x * 256 + c) (0 * 256 + b) bs := rfl
  rw [hstep, byteListVal_foldl_acc bs (0 * 256 + b)]
  ring_nf

theorem byteListVal_append (xs ys : List Nat) :
    byteListVal (xs ++ ys) =
      byteListVal xs * 256 ^ ys.length + byteListVal ys := by
  unfold byteListVal
  rw [List.foldl_append]
  exact byteListVal_foldl_acc ys _

theorem byteListVal_lt {bs : List Nat} (hb : ∀ b ∈ bs, b < 256) :
    byteListVal bs < 256 ^ bs.length := by
  induction bs with
  | nil => simp [byteListVal]
  | cons b rest ih =>
    rw [byteListVal_cons]
    have h1 : b < 256 := hb b (by simp)
    have h2 : byteListVal rest < 256 ^ rest.length :=
      ih (fun x hx => hb x (by simp [hx]))
    have : (b + 1) * 256 ^ rest.length ≤ 256 * 256 ^ rest.length :=
      Nat.mul_le_mul_right _ (by omega)
    calc b * 256 ^ rest.length + byteListVal rest
        < b * 256 ^ rest.length + 256 ^ rest.length := by omega
      _ = (b + 1) * 256 ^ rest.length := by ring
      _ ≤ 256 * 256 ^ rest.length := this
      _ = 256 ^ (b :: rest).length := by
          rw [List.length_cons]
          ring

/-- Big-endian byte extraction from a decoded string literal: byte i of the
word is the i-th byte of the literal, and zero beyond the literal's length
(right zero-padding). -/
theorem decodeStringLiteral_byte {bs : List Nat} (hb : ∀ b ∈ bs, b < 256)
    (hlen : bs.length ≤ 32) {i : Nat} (hi : i < 32) :
    wordByteBE (decodeStringLiteral bs) i = bs.getD i 0 := by
  rw [decodeStringLiteral_eq]
  unfold wordByteBE
  by_cases hil : i < bs.length
  · -- In range: the byte comes from the literal.
    have hsplit : bs.take (i + 1) ++ bs.drop (i + 1) = bs :=
      List.take_append_drop _ _
    have hTlen : (bs.take (i + 1)).length = i + 1 := by
      rw [List.length_take]
      omega
    have hDlen : (bs.drop (i + 1)).length = bs.length - (i + 1) := by
      rw [List.length_drop]
    have hval : byteListVal bs =
        byteListVal (bs.take (i + 1)) * 256 ^ (bs.length - (i + 1)) +
          byteListVal (bs.drop (i + 1)) := by
      conv_lhs => rw [← hsplit]
      rw [byteListVal_append, hDlen]
    have hDlt : byteListVal (bs.drop (i + 1)) < 256 ^ (bs.length - (i + 1)) := by
      have hdropb : ∀ x ∈ bs.drop (i + 1), x < 256 :=
        fun x hx => hb x (List.mem_of_mem_drop hx)
      have := byteListVal_lt hdropb
      rwa [hDlen] at this
    have hexp : (bs.length - (i + 1)) + (32 - bs.length) = 31 - i := by omega
    have hdecomp : byteListVal bs * 256 ^ (32 - bs.length) =
        byteListVal (bs.take (i + 1)) * 256 ^ (31 - i) +
          byteListVal (bs.drop (i + 1)) * 256 ^ (32 - bs.length) := by
      rw [hval]
      rw [add_mul, mul_assoc, ← pow_add, hexp]
    have hrem : byteListVal (bs.drop (i + 1)) * 256 ^ (32 - bs.length) <
        256 ^ (31 - i) := by
      calc byteListVal (bs.drop (i + 1)) * 256 ^ (32 - bs.length)
          < 256 ^ (bs.length - (i + 1)) * 256 ^ (32 - bs.length) :=
            (Nat.mul_lt_mul_right (Nat.pos_pow_of_pos _ (by omega))).mpr hDlt
        _ = 256 ^ (31 - i) := by rw [← pow_add, hexp]
    have hdiv : byteListVal bs * 256 ^ (32 - bs.length) / 256 ^ (31 - i) =
        byteListVal (bs.take (i + 1)) := by
      rw [hdecomp, mul_comm (byteListVal (bs.take (i + 1)))]
      rw [Nat.mul_add_div (Nat.pos_pow_of_pos _ (by omega))]
      rw [Nat.div_eq_of_lt hrem, Nat.add_zero]
    rw [hdiv]
    have htake : bs.take (i + 1) = bs.take i ++ [bs.get ⟨i, hil⟩] := by
      rw [List.take_succ]
      congr 1
      rw [List.getElem?_eq_getElem hil]
      simp [List.get_eq_getElem]
    rw [htake, byteListVal_append]
    have hsingle : byteListVal [bs.get ⟨i, hil⟩] = bs.get ⟨i, hil⟩ := by
      simp [byteListVal]
    rw [hsingle]
    simp only [List.length_singleton, pow_one]
    rw [Nat.mul_add_mod']
    rw [Nat.mod_eq_of_lt (hb _ (bs.get_mem i hil))]
    rw [List.getD_eq_getElem bs 0 hil]
    simp [List.get_eq_getElem]
  · -- Beyond the literal: the padding byte is zero.
    push_neg at hil
    have hexp : (31 - i) + (i + 1 - bs.length) = 32 - bs.length := by omega
    have hdecomp : byteListVal bs * 256 ^ (32 - bs.length) =
        byteListVal bs * 256 ^ (i + 1 - bs.length) * 256 ^ (31 - i) := by
      rw [mul_assoc, ← pow_add]
      rw [Nat.add_comm (i + 1 - bs.length)]
      rw [hexp]
    rw [hdecomp, Nat.mul_div_cancel _ (Nat.pos_pow_of_pos _ (by omega))]
    have he : i + 1 - bs.length = (i - bs.length) + 1 := by omega
    rw [he, pow_succ, ← mul_assoc, Nat.mul_mod_left]
    rw [List.getD_eq_default bs 0 hil]

/-- Round trip: decoding a 32-byte list and reading the word's 32 big-endian
bytes gives back exactly the list. -/
theorem wordBytesBE_decode {bs : List Nat} (hb : ∀ b ∈ bs, b < 256)
    (hlen : bs.length = 32) :
    wordBytesBE (decodeStringLiteral bs) = bs := by
  unfold wordBytesBE
  apply List.ext_getElem
  · simp [hlen]
  · intro i h1 h2
    simp only [List.getElem_map, List.getElem_range]
    have hi32 : i < 32 := by simpa using h1
    rw [decodeStringLiteral_byte hb (by omega) hi32]
    rw [List.getD_eq_getElem bs 0 (by omega)]

/-! ## Concrete test programs -/

/-- A shorthand for a numeric literal expression. -/
def numLit (s : String) : Expression := .lit (Literal.mk .Number s)

/-- let x := 1 inside a nested block, then let x := 2 as a sibling statement
of the enclosing block. -/
def siblingRedeclProg : Block :=
  Block.mk
    [ .block (Block.mk [.varDecl [("x")] (some (numLit ("1")))])
    , .varDecl [("x")] (some (numLit ("2"))) ]

/-- A single block declaring x. -/
def declBlockProg : Block :=
  Block.mk [.varDecl [("x")] (some (numLit ("1")))]

/-- function fact(n) -> r with switch-based recursion, then let x := fact(5). -/
def factProg : Block :=
  Block.mk
    [ .funDef (FunctionDefinition.mk ("fact") [("n")] [("r")] (Block.mk
        [ .switch (.ident ("n"))
            [ Case.mk (some (Literal.mk .Number ("0")))
                (Block.mk [.assign [("r")] (numLit ("1"))])
            , Case.mk none (Block.mk
                [.assign [("r")]
                  (.instr ("mul")
                    [ .ident ("n")
                    , .call ("fact")
                        [.instr ("sub") [.ident ("n"), numLit ("1")]]])]) ]]))
    , .varDecl [("x")] (some (.call ("fact") [numLit ("5")])) ]

/-- function two() -> a, b assigning 11 and 22, then let p, q := two(). -/
def twoProg : Block :=
  Block.mk
    [ .funDef (FunctionDefinition.mk ("two") [] [("a"), ("b")] (Block.mk
        [ .assign [("a")] (numLit ("11")), .assign [("b")] (numLit ("22")) ]))
    , .varDecl [("p"), ("q")] (some (.call ("two") [])) ]

/-- A for loop with a two-declaration initializer, a lt condition, an add
post block and a body ticking the observable instruction trace. -/
def loopProg : Block :=
  Block.mk
    [ .forLoop
        (Block.mk
          [ .varDecl [("i")] (some (numLit ("0")))
          , .varDecl [("j")] (some (numLit ("1"))) ])
        (.instr ("lt") [.ident ("i"), numLit ("3")])
        (Block.mk [.assign [("i")] (.instr ("add") [.ident ("i"), numLit ("1")])])
        (Block.mk [.exprStmt (.instr ("tick") [.ident ("i"), .ident ("j")])]) ]

/-- function f() followed by let f := 2 in the same block: the declared
variable name collides with the visible function name. -/
def funShadowProg : Block :=
  Block.mk
    [ .funDef (FunctionDefinition.mk ("f") [] [] (Block.mk []))
    , .varDecl [("f")] (some (numLit ("2"))) ]

/-- function g(a) -> a with an empty body, then let y := g(7): the return
variable has the same name as the parameter. -/
def shadowProg : Block :=
  Block.mk
    [ .funDef (FunctionDefinition.mk ("g") [("a")] [("a")] (Block.mk []))
    , .varDecl [("y")] (some (.call ("g") [numLit ("7")])) ]

/-- A switch on 5 with explicit cases 1 and 2 and a final default case, each
body ticking a distinct observable instruction. -/
def switchProg : Block :=
  Block.mk
    [ .switch (numLit ("5"))
        [ Case.mk (some (Literal.mk .Number ("1")))
            (Block.mk [.exprStmt (.instr ("tick1") [])])
        , Case.mk (some (Literal.mk .Number ("2")))
            (Block.mk [.exprStmt (.instr ("tick2") [])])
        , Case.mk none (Block.mk [.exprStmt (.instr ("tickD") [])]) ] ]

/-! ## Claims -/

/-- C1: for every instruction call or function call, argument expressions are
evaluated in reverse (rightmost-first) textual order — splitting off the last
written argument, it is evaluated first, in the incoming machine state — while
the value sequence delivered to the instruction or callee is reassembled into
the original left-to-right written order.  Concretely, evaluating
pair(A(), B()) on the recording test machine logs B's side effect before A's
and then hands pair the values [value(A), value(B)] = [10, 20] in written
order. -/
theorem claim_C1_argument_order :
    (∀ (S : Type) (M : EvalInstr S) (f : Nat) (es : List Expression)
        (e : Expression) (env : Env) (s : S),
        evaluateArgs M f (es ++ [e]) env s = (do
          let (v, env1, s1) ← evaluate M f e env s
          let (vs, env2, s2) ← evaluateArgs M f es env1 s1
          .ok (vs ++ [v], env2, s2)))
    ∧ exprValues (evalExprF testEval 5
        (.instr ("pair") [.instr ("A") [], .instr ("B") []]) Env.empty []) =
        some [0]
    ∧ exprState (evalExprF testEval 5
        (.instr ("pair") [.instr ("A") [], .instr ("B") []]) Env.empty []) =
        some [(("B"), []), (("A"), []), (("pair"), [10, 20])] :=
  ⟨fun _ M f es e env s => evaluateArgs_snoc M f es e env s,
    by decide, by decide⟩

/-- C9: evaluating an expression leaves the evaluating interpreter's own
environment — variable bindings, function table and scope stack — unchanged;
a nested function call only mutates its fresh sub-environment, which is
discarded after the call returns, while the shared machine state may still
change. -/
theorem claim_C9_expression_frame :
    ∀ (S : Type) (M : EvalInstr S) (f : Nat) (e : Expression) (env : Env)
      (s : S) (vs : List Word) (env2 : Env) (s2 : S),
      evalExprF M f e env s = .ok (vs, env2, s2) → env2 = env :=
  fun _ M f e env s vs env2 s2 h =>
    evalExpr_env_preserved M f e env s (vs, env2, s2) h

/-- Witness for C9: a concrete identifier evaluation with a mutated-state
instruction sibling, discharging the success hypothesis by computation. -/
theorem claim_C9_witness :
    (⟨[(("x"), 7)], [], []⟩ : Env) = ⟨[(("x"), 7)], [], []⟩ :=
  claim_C9_expression_frame TestState testEval 1 (.ident ("x"))
    ⟨[(("x"), 7)], [], []⟩ [] [7] ⟨[(("x"), 7)], [], []⟩ [] rfl

/-- C2 (failing on the code): the claim says every name introduced directly
in a block is removed, exactly once, when the block finishes, making it
unreachable afterwards and re-usable in a sibling; in this code declarations
never record names in any scope frame, so closeScope removes nothing: a
variable declared in a finished block is still bound afterwards, and a
sibling re-declaration of the same name dies on the no-shadowing assertion. -/
theorem claim_C2_scope_close_bug :
    resultVar (execStmt testEval 5 (.block declBlockProg) Env.empty [])
        ("x") = some 1
    ∧ isFatalOutcome (run testEval 10 siblingRedeclProg []) = true := by
  constructor
  · decide
  · decide

/-- Helper: a successful lookup makes contains true. -/
theorem SMap.contains_of_lookup {α : Type} {m : SMap α} {n : String} {a : α}
    (h : m.lookup n = some a) : m.contains n = true := by
  unfold SMap.contains
  rw [h]
  rfl

/-- C3: for every function call, the evaluated argument count must equal the
callee's declared parameter count exactly (fatal otherwise); the callee's
body runs in a fresh environment consisting solely of parameters bound
positionally to the evaluated argument values and return variables bound to
zero; the call's multi-value result reads back the return variables in their
declared order; and recursion through functions visible at the call site
works — a self-calling factorial of 5 terminates with 120. -/
theorem claim_C3_function_call :
    (∀ (S : Type) (M : EvalInstr S) (f : Nat) (n : String)
        (args : List Expression) (env env1 : Env) (s : S) (s1 : S)
        (vs : List Word) (fd : FunctionDefinition),
        env.functions.lookup n = some fd →
        evaluateArgs M f args env s = .ok (vs, env1, s1) →
        env1.functions.lookup n = some fd →
        vs.length ≠ fd.parameters.length →
        evalExprF M (f + 1) (.call n args) env s = .fatal)
    ∧ (∀ (ps : List String) (vs : List Word) (rs : List String),
        ps.Nodup → ps.length ≤ vs.length →
        (∀ (i : Nat) (hi : i < ps.length) (hiv : i < vs.length),
          ps.get ⟨i, hi⟩ ∉ rs →
          (callArguments ps vs rs).lookup (ps.get ⟨i, hi⟩) =
            some (vs.get ⟨i, hiv⟩))
        ∧ (∀ n ∈ rs, (callArguments ps vs rs).lookup n = some 0)
        ∧ (∀ n, n ∉ ps → n ∉ rs → (callArguments ps vs rs).lookup n = none))
    ∧ resultVar (run testEval 45 factProg []) ("x") = some 120
    ∧ resultVar (run testEval 30 twoProg []) ("p") = some 11
    ∧ resultVar (run testEval 30 twoProg []) ("q") = some 22 := by
  refine ⟨?_, ?_, ?_, ?_, ?_⟩
  · intro S M f n args env env1 s s1 vs fd hf hargs hf1 hlen
    show interp M (f + 1) (.expr (.call n args)) env s = .fatal
    rw [interp_expr_call]
    rw [if_pos (SMap.contains_of_lookup hf)]
    rw [hargs]
    simp only [Outcome.monad_bind_eq, Outcome.bind_ok]
    rw [hf1]
    dsimp only
    rw [if_neg hlen]
  · intro ps vs rs hnd hlen
    exact ⟨fun i hi hiv hnr => callArguments_lookup_param hnd hlen hi hiv hnr,
      fun n hn => callArguments_lookup_ret hn,
      fun n hp hr => callArguments_lookup_none hp hr⟩
  · set_option maxRecDepth 10000 in
    set_option maxHeartbeats 1000000 in
    decide
  · set_option maxRecDepth 10000 in decide
  · set_option maxRecDepth 10000 in decide

/-- Witness for C3: the arity-mismatch branch at a concrete two-argument
call of a one-parameter function, and the fresh-environment content at a
concrete parameter list, argument list and return-variable list. -/
theorem claim_C3_witness :
    evalExprF testEval 2
        (.call ("g") [numLit ("1"), numLit ("2")])
        ⟨[], [(("g"), FunctionDefinition.mk ("g") [("a")] [] (Block.mk []))], []⟩
        ([] : TestState) = .fatal
    ∧ (callArguments [("a"), ("b")] [5, 6] [("r")]).lookup ("a") = some 5
    ∧ (callArguments [("a"), ("b")] [5, 6] [("r")]).lookup ("r") = some 0
    ∧ (callArguments [("a"), ("b")] [5, 6] [("r")]).lookup ("c") = none := by
  refine ⟨?_, ?_, ?_, ?_⟩
  · exact claim_C3_function_call.1 TestState testEval 1 ("g")
      [numLit ("1"), numLit ("2")]
      ⟨[], [(("g"), FunctionDefinition.mk ("g") [("a")] [] (Block.mk []))], []⟩
      ⟨[], [(("g"), FunctionDefinition.mk ("g") [("a")] [] (Block.mk []))], []⟩
      [] [] [1, 2] (FunctionDefinition.mk ("g") [("a")] [] (Block.mk []))
      rfl rfl rfl (by decide)
  · exact ((claim_C3_function_call.2.1 [("a"), ("b")] [5, 6] [("r")]
      (by decide) (by decide)).1 0 (by decide) (by decide) (by decide))
  · exact ((claim_C3_function_call.2.1 [("a"), ("b")] [5, 6] [("r")]
      (by decide) (by decide)).2.1 ("r") (by decide))
  · exact ((claim_C3_function_call.2.1 [("a"), ("b")] [5, 6] [("r")]
      (by decide) (by decide)).2.2 ("c") (by decide) (by decide))

/-- C10: when a callee declares a return variable with the same name as one
of its parameters, the fresh call environment binds that name to zero — the
return-variable zero, written after the parameters, overwrites the
positionally bound argument value; concretely, g(a) -> a with an empty body
returns 0 on g(7), not 7. -/
theorem claim_C10_return_variable_overwrites_parameter :
    (∀ (ps : List String) (vs : List Word) (rs : List String) (n : String),
        n ∈ rs → (callArguments ps vs rs).lookup n = some 0)
    ∧ resultVar (run testEval 20 shadowProg []) ("y") = some 0 :=
  ⟨fun _ _ _ _ hn => callArguments_lookup_ret hn,
    by set_option maxRecDepth 10000 in decide⟩

/-- Witness for C10: the parameter-and-return-variable name a of g is bound
to zero in the call environment, not to the argument value 7. -/
theorem claim_C10_witness :
    (callArguments [("a")] [7] [("a")]).lookup ("a") = some 0 :=
  claim_C10_return_variable_overwrites_parameter.1
    [("a")] [7] [("a")] ("a") (by decide)

/-- C4 counterexample: the claim says declaring a name that is visible as a
function is a fatal error, but the code checks only the variable map, so
declaring let f := 2 next to function f() succeeds and binds the variable. -/
theorem claim_C4_counterexample :
    isFatalOutcome (run testEval 20 funShadowProg []) = false
    ∧ resultVar (run testEval 20 funShadowProg []) ("f") = some 2 := by
  constructor
  · decide
  · decide

/-- C4 (amended): declaring a name that is already visible as a variable is
fatal (whether the declaration has an initializer or not), but visibility as
a function is not checked by declarations; assigning to a name that is not a
declared visible variable is fatal. -/
theorem claim_C4_no_shadowing_and_assignment :
    (∀ (S : Type) (M : EvalInstr S) (f : Nat) (names : List String)
        (env : Env) (s : S) (n : String),
        n ∈ names → env.vars.contains n = true →
        execStmt M (f + 1) (.varDecl names none) env s = .fatal)
    ∧ (∀ (S : Type) (M : EvalInstr S) (f : Nat) (names : List String)
        (e : Expression) (env env1 : Env) (s s1 : S) (vals : List Word)
        (n : String),
        n ∈ names →
        evalExprF M f e env s = .ok (vals, env1, s1) →
        vals.length = names.length →
        env1.vars.contains n = true →
        execStmt M (f + 1) (.varDecl names (some e)) env s = .fatal)
    ∧ (∀ (S : Type) (M : EvalInstr S) (f : Nat) (names : List String)
        (e : Expression) (env env1 : Env) (s s1 : S) (vals : List Word)
        (n : String),
        n ∈ names →
        evalExprF M f e env s = .ok (vals, env1, s1) →
        vals.length = names.length →
        env1.vars.contains n = false →
        execStmt M (f + 1) (.assign names e) env s = .fatal) := by
  refine ⟨?_, ?_, ?_⟩
  · intro S M f names env s n hmem hvis
    unfold execStmt
    rw [interp_stmt_varDecl_none]
    rw [declareLoop_fatal hmem (by simp) hvis]
    rfl
  · intro S M f names e env env1 s s1 vals n hmem hev hlen hvis
    unfold execStmt
    rw [interp_stmt_varDecl_some]
    have hev2 : interp M f (.expr e) env s = .ok (vals, env1, s1) := hev
    rw [hev2]
    simp only [Outcome.monad_bind_eq, Outcome.bind_ok]
    rw [if_pos hlen]
    rw [declareLoop_fatal hmem hlen.symm hvis]
    rfl
  · intro S M f names e env env1 s s1 vals n hmem hev hlen habs
    unfold execStmt
    rw [interp_stmt_assign]
    have hev2 : interp M f (.expr e) env s = .ok (vals, env1, s1) := hev
    rw [hev2]
    simp only [Outcome.monad_bind_eq, Outcome.bind_ok]
    rw [if_pos hlen]
    rw [assignLoop_fatal hmem hlen.symm habs]
    rfl

/-- Witness for C4: a re-declaration of a bound variable without and with an
initializer, and an assignment to an undeclared name, each fatal at a
concrete input. -/
theorem claim_C4_witness :
    execStmt testEval 1 (.varDecl [("x")] none)
        ⟨[(("x"), 1)], [], []⟩ ([] : TestState) = .fatal
    ∧ execStmt testEval 2 (.varDecl [("x")] (some (numLit ("5"))))
        ⟨[(("x"), 1)], [], []⟩ ([] : TestState) = .fatal
    ∧ execStmt testEval 2 (.assign [("z")] (numLit ("5")))
        Env.empty ([] : TestState) = .fatal := by
  refine ⟨?_, ?_, ?_⟩
  · exact claim_C4_no_shadowing_and_assignment.1 TestState testEval 0 [("x")]
      ⟨[(("x"), 1)], [], []⟩ [] ("x") (by decide) (by decide)
  · exact claim_C4_no_shadowing_and_assignment.2.1 TestState testEval 1
      [("x")] (numLit ("5")) ⟨[(("x"), 1)], [], []⟩ ⟨[(("x"), 1)], [], []⟩
      [] [] [5] ("x") (by decide) rfl (by decide) (by decide)
  · exact claim_C4_no_shadowing_and_assignment.2.2 TestState testEval 1
      [("z")] (numLit ("5")) Env.empty Env.empty [] [] [5] ("z")
      (by decide) rfl (by decide) (by decide)

set_option maxRecDepth 10000 in
set_option maxHeartbeats 2000000 in
/-- C6 (failing on the code): the claim's positive content holds — the
initializer statements run once, in order, inside the loop's scope, the
variables i and j persist across all iterations and are visible to the
condition, body and post block, and the body runs exactly 3 times — but the
claimed closing of the initializer's scope removes nothing: i and j are still
bound after the loop (and even after the enclosing block) because declared
names are never recorded in any scope frame. -/
theorem claim_C6_loop_scope_bug :
    resultState (run testEval 25 loopProg []) =
        some [(("tick"), [0, 1]), (("tick"), [1, 1]), (("tick"), [2, 1])]
    ∧ resultVar (run testEval 25 loopProg []) ("i") = some 3
    ∧ resultVar (run testEval 25 loopProg []) ("j") = some 1 := by
  exact ⟨by decide, by decide, by decide⟩

/-- C7: a declaration without an initializer binds every declared name to
the zero value, so each declared name reads as zero immediately after the
declaration executes (stated for fresh, pairwise-distinct names — otherwise
the declaration is fatal by the no-shadowing check). -/
theorem claim_C7_declaration_zero_default :
    ∀ (S : Type) (M : EvalInstr S) (f : Nat) (names : List String)
      (env : Env) (s : S),
      names.Nodup → (∀ n ∈ names, env.vars.contains n = false) →
      ∃ env2,
        execStmt M (f + 1) (.varDecl names none) env s = .ok (env2, s)
        ∧ ∀ n ∈ names, env2.vars.lookup n = some 0 := by
  intro S M f names env s hnd habs
  obtain ⟨vars2, heq, hzero, hpres⟩ := declareLoop_zeros_ok hnd habs
  refine ⟨{ env with vars := vars2 }, ?_, fun n hn => hzero n hn⟩
  unfold execStmt
  rw [interp_stmt_varDecl_none, heq]
  rfl

/-- Witness for C7: declaring a and b without initializer in the empty
environment succeeds and both read as zero. -/
theorem claim_C7_witness :
    ∃ env2,
      execStmt testEval 1 (.varDecl [("a"), ("b")] none) Env.empty
          ([] : TestState) = .ok (env2, [])
      ∧ ∀ n ∈ [("a"), ("b")], env2.vars.lookup n = some 0 :=
  claim_C7_declaration_zero_default TestState testEval 0 [("a"), ("b")]
    Env.empty [] (by decide) (by decide)

/-- C5: a switch evaluates its scrutinee to a single value, then evaluates
the case guards in declaration order until one compares equal; exactly the
matching case's body executes and the switch stops (no fallthrough); when no
explicit guard matches and a guard-less default case follows the explicit
cases, exactly the default case's body executes, once.  Concretely, a switch
on 5 with cases 1, 2 and a default logs only the default's instruction, once. -/
theorem claim_C5_switch_selection :
    (∀ (S : Type) (M : EvalInstr S) (f : Nat) (e : Expression)
        (pre : List (Literal × Block)) (g : Literal) (b : Block)
        (cs : List Case) (v : Word) (env env1 : Env) (s s1 : S),
        evaluate M (f + 1) e env s = .ok (v, env1, s1) →
        (∀ p ∈ pre, ∃ w, evalLiteral p.1 = .ok w ∧ w ≠ v) →
        evalLiteral g = .ok v →
        execStmt M (f + 1 + 1)
            (.switch e (guardedCases pre ++ Case.mk (some g) b :: cs)) env s =
          execBlock M (f + 1) b env1 s1)
    ∧ (∀ (S : Type) (M : EvalInstr S) (f : Nat) (e : Expression)
        (pre : List (Literal × Block)) (b : Block) (v : Word)
        (env env1 : Env) (s s1 : S),
        evaluate M (f + 1) e env s = .ok (v, env1, s1) →
        (∀ p ∈ pre, ∃ w, evalLiteral p.1 = .ok w ∧ w ≠ v) →
        execStmt M (f + 1 + 1)
            (.switch e (guardedCases pre ++ [Case.mk none b])) env s =
          execBlock M (f + 1) b env1 s1)
    ∧ resultState (run testEval 20 switchProg []) = some [(("tickD"), [])] := by
  refine ⟨?_, ?_, ?_⟩
  · intro S M f e pre g b cs v env env1 s s1 hev hpre hg
    unfold execStmt
    rw [interp_stmt_switch]
    rw [hev]
    simp only [Outcome.monad_bind_eq, Outcome.bind_ok]
    rw [runCases_skip M f _ pre (Case.mk (some g) b :: cs) v env1 s1 hpre]
    rw [runCases_match_head M f _ g b cs v env1 s1 hg]
    unfold execBlock
    cases hb : interp M (f + 1) (.block b) env1 s1 with
    | ok r =>
      obtain ⟨ws, env3, s3⟩ := r
      simp
    | fatal => simp
    | outOfFuel => simp
  · intro S M f e pre b v env env1 s s1 hev hpre
    unfold execStmt
    rw [interp_stmt_switch]
    rw [hev]
    simp only [Outcome.monad_bind_eq, Outcome.bind_ok]
    rw [runCases_skip M f _ pre [Case.mk none b] v env1 s1 hpre]
    rw [runCases_default_head]
    unfold execBlock
    cases hb : interp M (f + 1) (.block b) env1 s1 with
    | ok r =>
      obtain ⟨ws, env3, s3⟩ := r
      simp
    | fatal => simp
    | outOfFuel => simp
  · set_option maxRecDepth 10000 in decide

/-- Witness for C5: the default case of switchProg is selected after the
guards 1 and 2 are rejected against the scrutinee 5. -/
theorem claim_C5_witness :
    execStmt testEval 3
        (.switch (numLit ("5"))
          (guardedCases
              [ (Literal.mk .Number ("1"),
                  Block.mk [.exprStmt (.instr ("tick1") [])])
              , (Literal.mk .Number ("2"),
                  Block.mk [.exprStmt (.instr ("tick2") [])]) ] ++
            [Case.mk none (Block.mk [.exprStmt (.instr ("tickD") [])])]))
        Env.empty ([] : TestState) =
      execBlock testEval 2
        (Block.mk [.exprStmt (.instr ("tickD") [])]) Env.empty [] :=
  claim_C5_switch_selection.2.1 TestState testEval 1 (numLit ("5"))
    [ (Literal.mk .Number ("1"), Block.mk [.exprStmt (.instr ("tick1") [])])
    , (Literal.mk .Number ("2"), Block.mk [.exprStmt (.instr ("tick2") [])]) ]
    (Block.mk [.exprStmt (.instr ("tickD") [])]) 5 Env.empty Env.empty [] []
    rfl
    (by
      intro p hp
      fin_cases hp
      · exact ⟨1, rfl, by decide⟩
      · exact ⟨2, rfl, by decide⟩)

/-- C8: a string literal of at most 32 bytes decodes by left-aligning its
bytes into the 256-bit word, zero-padded on the right, with the word read as
a big-endian byte sequence — byte i of the word is byte i of the literal for
i below the length and zero beyond it; a literal of exactly 32 bytes
round-trips (the word's 32 big-endian bytes equal the literal's bytes); a
literal longer than 32 bytes is a fatal inconsistency. -/
theorem claim_C8_string_literal_decoding :
    ∀ sv : String, (∀ c ∈ sv.data, c.toNat < 256) →
      (sv.length ≤ 32 →
        evalLiteral (Literal.mk .String sv) =
          .ok (decodeStringLiteral (litBytes sv))
        ∧ ∀ i, i < 32 →
            wordByteBE (decodeStringLiteral (litBytes sv)) i =
              (litBytes sv).getD i 0)
      ∧ (sv.length = 32 →
          wordBytesBE (decodeStringLiteral (litBytes sv)) = litBytes sv)
      ∧ (32 < sv.length → evalLiteral (Literal.mk .String sv) = .fatal) := by
  intro sv hb
  have hbytes : ∀ b ∈ litBytes sv, b < 256 := by
    intro b hbmem
    rcases List.mem_map.mp hbmem with ⟨c, hc, rfl⟩
    exact hb c hc
  have hlenb : (litBytes sv).length = sv.length := by
    unfold litBytes
    rw [List.length_map]
    rfl
  refine ⟨fun hle => ⟨?_, fun i hi => ?_⟩, fun h32 => ?_, fun hgt => ?_⟩
  · simp [evalLiteral, hle]
  · exact decodeStringLiteral_byte hbytes (by omega) hi
  · exact wordBytesBE_decode hbytes (by omega)
  · simp only [evalLiteral]
    rw [if_neg (by omega)]

/-- Witness for C8: a 32-byte ASCII literal decodes and reads back
byte-for-byte, and a 33-byte literal is fatal. -/
theorem claim_C8_witness :
    wordBytesBE
        (decodeStringLiteral
          (litBytes ("abcdefghijklmnopqrstuvwxyz012345"))) =
      litBytes ("abcdefghijklmnopqrstuvwxyz012345")
    ∧ evalLiteral
        (Literal.mk .String ("abcdefghijklmnopqrstuvwxyz0123456")) =
      .fatal :=
  ⟨(claim_C8_string_literal_decoding ("abcdefghijklmnopqrstuvwxyz012345")
      (by decide)).2.1 (by decide),
    (claim_C8_string_literal_decoding ("abcdefghijklmnopqrstuvwxyz0123456")
      (by decide)).2.2 (by decide)⟩
